import Mathlib

/-! Shallow embedding of the andviro/middleware Go library (middleware.go) and
its state-machine layer (state/state.go).  Go contexts are modelled as
association lists of key/value bindings (most recent first), the Go error
interface as the closed type GoErr covering exactly the values this code
constructs, observable side effects of handlers as an event trace, and nilable
Go function values as Option.  A Go runtime panic (calling a nil function,
dereferencing a nil pointer) is modelled as the distinguished error
constructor GoErr.panicked: since the library contains no recover and no
deferred calls, a panic unwinds through every frame exactly like an error
value that no type assertion matches, which is what the embedding produces. -/

/-- Go struct State from state/state.go: Key, Payload (kept as a plain string,
its contents are never inspected by the embedded code) and Prev, the pointer
to the previous state on the stack (nil pointer = Option.none). -/
inductive StateV : Type where
  | mk (key : String) (payload : String) (prev : Option StateV)

def StateV.key : StateV → String
  | StateV.mk k _ _ => k

def StateV.prev : StateV → Option StateV
  | StateV.mk _ _ p => p

/-- The Go assignment next.Prev = prev on a freshly built state. -/
def StateV.withPrev : StateV → Option StateV → StateV
  | StateV.mk k pl _, pr => StateV.mk k pl pr

/-- Values of the Go error interface occurring in this library: the nil
interface, a genuine failure, a *State carried through the error channel
(the pointer itself may be nil, which still makes the interface non-nil),
and a runtime panic. -/
inductive GoErr : Type where
  | none
  | fail (msg : String)
  | state (p : Option StateV)
  | panicked (msg : String)

/-- Observable side effects: the trace entries written by the test middlewares
and handlers of middleware_test.go, plus the Store.Get / Store.Set calls
performed by Machine. -/
inductive Event : Type where
  | mw (s : String)
  | h (s : String)
  | storeGet
  | storeSet (p : Option StateV)

/-- Context keys: the private stateKey of package state, or any other key
(the tests use a single extra key). -/
inductive CtxKey : Type where
  | stateKey
  | okey (n : Nat)

def CtxKey.beq : CtxKey → CtxKey → Bool
  | CtxKey.stateKey, CtxKey.stateKey => true
  | CtxKey.okey a, CtxKey.okey b => a == b
  | _, _ => false

/-- Context values: a State value (what With stores), a *State pointer (what
Machine stores), or an integer (what the tests store). -/
inductive CtxVal : Type where
  | stateVal (s : StateV)
  | statePtr (p : Option StateV)
  | intVal (n : Int)

/-- A Go context: bindings most recent first; lookup walks outward. -/
abbrev Ctx : Type := List (CtxKey × CtxVal)

def Ctx.value : Ctx → CtxKey → Option CtxVal
  | [], _ => Option.none
  | (k, v) :: rest, k2 => cond (CtxKey.beq k k2) (Option.some v) (Ctx.value rest k2)

/-- context.WithValue: derive a child context with one more binding. -/
def withValue (ctx : Ctx) (k : CtxKey) (v : CtxVal) : Ctx :=
  (k, v) :: ctx

namespace middleware

/-- The function part of a Go Handler: context in, trace and error out. -/
abbrev HandlerF : Type := Ctx → List Event × GoErr

/-- Go Handler: a nilable function value. -/
abbrev Handler : Type := Option HandlerF

abbrev Predicate : Type := Ctx → Bool

/-- The function part of a Go Middleware. -/
abbrev MiddlewareF : Type := Ctx → Handler → List Event × GoErr

/-- Go Middleware: a nilable function value. -/
abbrev Middleware : Type := Option MiddlewareF

/-- var Default Middleware: the nil middleware. -/
def Default : Middleware := Option.none

/-- Handler.Apply: nil handler returns nil error, otherwise call it. -/
def Handler.Apply (h : Handler) (ctx : Ctx) : List Event × GoErr :=
  match h with
  | Option.none => ([], GoErr.none)
  | Option.some f => f ctx

/-- A direct Go call h(ctx) without the nil guard of Apply: calling a nil
function value panics. -/
def Handler.call (h : Handler) (ctx : Ctx) : List Event × GoErr :=
  match h with
  | Option.none => ([], GoErr.panicked "call of nil function")
  | Option.some f => f ctx

/-- Middleware.Then: nil middleware returns the handler unchanged. -/
def Middleware.Then (mw : Middleware) (h : Handler) : Handler :=
  match mw with
  | Option.none => h
  | Option.some f => Option.some (fun ctx => f ctx h)

/-- Handler.Use: the Go loop "for i := len(mws)-1; i >= 0; i-- \x7b h =
mws[i].Then(h) \x7d", i.e. the right fold of Then over the list. -/
def Handler.Use (h : Handler) : List Middleware → Handler
  | [] => h
  | m :: rest => Middleware.Then m (Handler.Use h rest)

/-- Compose: next.Use(mws...).Apply(ctx). -/
def Compose (mws : List Middleware) : Middleware :=
  Option.some (fun ctx next => Handler.Apply (Handler.Use next mws) ctx)

/-- Lazy: build the middleware from the context on each invocation. -/
def Lazy (f : Ctx → Middleware) : Middleware :=
  Option.some (fun ctx next => Handler.Apply (Middleware.Then (f ctx) next) ctx)

/-- Middleware.Use: mw.Then(next.Use(mws...)).Apply(ctx). -/
def Middleware.Use (mw : Middleware) (mws : List Middleware) : Middleware :=
  Option.some (fun ctx next =>
    Handler.Apply (Middleware.Then mw (Handler.Use next mws)) ctx)

/-- Middleware.Branch: trueMw is built at construction time, the predicate is
consulted at call time through Lazy. -/
def Middleware.Branch (mw : Middleware) (p : Predicate) (mws : List Middleware) : Middleware :=
  let trueMw := Middleware.Use mw mws
  Lazy (fun ctx => cond (p ctx) trueMw mw)

/-- Optional: Middleware(nil).Branch(p, mws...). -/
def Optional (p : Predicate) (mws : List Middleware) : Middleware :=
  Middleware.Branch Option.none p mws

/-- Middleware.On: when the predicate holds, run the receiver with h as
continuation, otherwise with the caller-supplied continuation. -/
def Middleware.On (mw : Middleware) (p : Predicate) (h : Handler) : Middleware :=
  Option.some (fun ctx next =>
    cond (p ctx)
      (Handler.Apply (Middleware.Then mw h) ctx)
      (Handler.Apply (Middleware.Then mw next) ctx))

end middleware

namespace state

open middleware

/-- Current: res, _ = ctx.Value(stateKey).(*State) — the type assertion only
succeeds on a *State binding, any other binding (in particular the State
value stored by With) yields nil. -/
def Current (ctx : Ctx) : Option StateV :=
  match Ctx.value ctx CtxKey.stateKey with
  | Option.some (CtxVal.statePtr p) => p
  | _ => Option.none

/-- The closed set of value shapes accepted by the type switch in lazy:
a literal key string, a context function, or a ready-made State. -/
inductive StateArg : Type where
  | key (s : String)
  | func (f : Ctx → GoErr)
  | state (st : StateV)

/-- lazy from state/state.go: build the deferred error-producing function. -/
def lazy : StateArg → Ctx → GoErr
  | StateArg.key t, _ => GoErr.state (Option.some (StateV.mk t "" Option.none))
  | StateArg.func t, ctx => t ctx
  | StateArg.state t, _ => GoErr.state (Option.some t)

/-- Next: run the continuation first; a non-nil outcome is returned
unchanged, otherwise evaluate the deferred value. -/
def Next (val : StateArg) : Middleware :=
  Option.some (fun ctx next =>
    match Handler.Apply next ctx with
    | (tr, GoErr.none) => (tr, lazy val ctx)
    | (tr, e) => (tr, e))

/-- Push: Next of a function that sets Prev of the freshly built state to
Current(ctx).  When the built value is not a *State the nil pointer is
returned through the error channel (ok == false leaves next nil); when it is
a nil *State the field assignment panics. -/
def Push (val : StateArg) : Middleware :=
  Next (StateArg.func (fun ctx =>
    match lazy val ctx with
    | GoErr.state (Option.some n) =>
        GoErr.state (Option.some (StateV.withPrev n (Current ctx)))
    | GoErr.state Option.none => GoErr.panicked "assignment to field of nil pointer"
    | _ => GoErr.state Option.none))

/-- Pop: Next of a function returning Current(ctx).Prev; dereferencing a nil
current state panics. -/
def Pop : Middleware :=
  Next (StateArg.func (fun ctx =>
    match Current ctx with
    | Option.some st => GoErr.state (StateV.prev st)
    | Option.none => GoErr.panicked "field access on nil pointer"))

/-- With: bind the State value (not a pointer) into a derived context and
invoke the continuation with it. -/
def With (state : StateV) : Middleware :=
  Option.some (fun ctx next =>
    Handler.Apply next (withValue ctx CtxKey.stateKey (CtxVal.stateVal state)))

/-- The Store interface: Get yields a *State and an error, Set yields the
error for a given argument; the calls themselves are recorded as events by
Machine. -/
structure Store : Type where
  get : Option StateV × GoErr
  setErr : Option StateV → GoErr

/-- Machine: obtain the store, load the state (a Get failure returns
immediately), call the continuation directly (no nil guard in the source)
with the *State bound into the context, and if the outcome type-asserts to
*State hand it to Store.Set and return the result of Set. -/
def Machine (factory : Ctx → Store) : Middleware :=
  Option.some (fun ctx next =>
    let store := factory ctx
    match store.get with
    | (st, GoErr.none) =>
      (match Handler.call next (withValue ctx CtxKey.stateKey (CtxVal.statePtr st)) with
       | (tr, GoErr.state ns) =>
           (Event.storeGet :: (tr ++ [Event.storeSet ns]), store.setErr ns)
       | (tr, e2) => (Event.storeGet :: tr, e2))
    | (_, e) => ([Event.storeGet], e))

end state

open middleware state

/-- Test fixture mwFactory from middleware_test.go: emit a trace entry, then
call the continuation. -/
def emitMw (s : String) : Middleware :=
  Option.some (fun ctx next =>
    let r := Handler.Apply next ctx
    (Event.mw s :: r.1, r.2))

/-- Test fixture handlerFactory: emit a trace entry and succeed. -/
def emitH (s : String) : Handler :=
  Option.some (fun _ => ([Event.h s], GoErr.none))

/-- A silent handler that just succeeds. -/
def okHandler : Handler :=
  Option.some (fun _ => ([], GoErr.none))

/-- Test predicate: ctx.Value("key").(int) == n. -/
def keyIs (n : Int) : Predicate := fun ctx =>
  match Ctx.value ctx (CtxKey.okey 0) with
  | Option.some (CtxVal.intVal m) => m == n
  | _ => false

/-- Context carrying the test key binding. -/
def ctxWithKey (n : Int) : Ctx := withValue [] (CtxKey.okey 0) (CtxVal.intVal n)

/-- An in-memory store: Get yields the persisted pointer without failure,
Set always succeeds. -/
def simpleStore (persisted : Option StateV) : Store :=
  Store.mk (persisted, GoErr.none) (fun _ => GoErr.none)

/-- The arguments of the Store.Set calls recorded in a trace. -/
def setCalls (tr : List Event) : List (Option StateV) :=
  tr.filterMap (fun e => match e with
    | Event.storeSet p => Option.some p
    | _ => Option.none)

/-- One Machine invocation over an in-memory store holding a persisted state,
around a middleware body terminated by a silent successful handler. -/
def machineRun (persisted : Option StateV) (body : Middleware) : List Event × GoErr :=
  Handler.Apply
    (Middleware.Then (Machine (fun _ => simpleStore persisted))
      (Middleware.Then body okHandler)) []

/-- Bottom of the test state stack. -/
def bottomS : StateV := StateV.mk "S0" "" Option.none

/-- State pushed first in the round-trip scenario. -/
def stA : StateV := StateV.mk "A" "" (Option.some bottomS)

/-- State pushed second in the round-trip scenario. -/
def stB : StateV := StateV.mk "B" "" (Option.some stA)

/-- Trace shape of a handler wrapped by a list of emitting middlewares: the
labels appear first, in list order, followed by the handler's own trace. -/
theorem handlerUse_emitMw_trace (ls : List String) (h : Handler) (ctx : Ctx) :
    Handler.Apply (Handler.Use h (List.map emitMw ls)) ctx
      = (List.map Event.mw ls ++ (Handler.Apply h ctx).1, (Handler.Apply h ctx).2) := by
  induction ls with
  | nil => simp [Handler.Use]
  | cons a rest ih =>
      have step : Handler.Apply (Handler.Use h (List.map emitMw (a :: rest))) ctx
          = (Event.mw a :: (Handler.Apply (Handler.Use h (List.map emitMw rest)) ctx).1,
             (Handler.Apply (Handler.Use h (List.map emitMw rest)) ctx).2) := rfl
      rw [step, ih]
      simp

/-- Claim C2 (code bug): With(s) does invoke the continuation on a derived
context carrying s, and it never consults a Store (first conjunct: the whole
invocation is exactly the continuation on the derived context, no store
events); but the slot it writes holds a State value while Current
type-asserts a *State, so Current on the context the continuation receives
returns nil, not s (second conjunct), also at the concrete input
With(State with Key "A") on the empty context (third conjunct). -/
theorem claim_C2_bug :
    (∀ (s : StateV) (ctx : Ctx) (f : HandlerF),
        Handler.Apply (Middleware.Then (With s) (Option.some f)) ctx
          = f (withValue ctx CtxKey.stateKey (CtxVal.stateVal s)))
    ∧ (∀ (s : StateV) (ctx : Ctx),
        Current (withValue ctx CtxKey.stateKey (CtxVal.stateVal s)) = Option.none)
    ∧ Current (withValue [] CtxKey.stateKey
        (CtxVal.stateVal (StateV.mk "A" "" Option.none))) = Option.none := by
  exact ⟨fun s ctx f => rfl, fun s ctx => rfl, rfl⟩

/-- Claim C3 (counterexample): Middleware.Use does not run the argument
middlewares ahead of the receiver: with receiver emitMw "2" and argument
list [emitMw "3"], the receiver's event comes first, so the trace is not
the one the claim predicts (arguments first, receiver last). -/
theorem claim_C3_counterexample :
    (Handler.Apply (Middleware.Then (Middleware.Use (emitMw "2") [emitMw "3"])
        Option.none) []).1
      = [Event.mw "2", Event.mw "3"]
    ∧ [Event.mw "2", Event.mw "3"] ≠ [Event.mw "3", Event.mw "2"] := by
  refine ⟨rfl, ?_⟩
  intro hcontra
  have h1 : Event.mw "2" = Event.mw "3" := by injection hcontra
  have h2 : "2" = "3" := by injection h1
  exact absurd h2 (by decide)

/-- Claim C3 (amended): the Handler method prepends — invoking
h.Use(mws...) runs mws[0] first, then mws[1], ..., then the receiver h,
because Then is right-folded over the list; but the Middleware method
appends — invoking mw.Use(mws...) runs the receiver mw first, then
mws[0], ..., then the caller-supplied continuation.  Stated on the
trace-emitting test middlewares. -/
theorem claim_C3_amended :
    (∀ (ls : List String) (h : Handler) (ctx : Ctx),
        Handler.Apply (Handler.Use h (List.map emitMw ls)) ctx
          = (List.map Event.mw ls ++ (Handler.Apply h ctx).1, (Handler.Apply h ctx).2))
    ∧ (∀ (r : String) (ls : List String) (next : Handler) (ctx : Ctx),
        Handler.Apply (Middleware.Then (Middleware.Use (emitMw r) (List.map emitMw ls))
            next) ctx
          = (Event.mw r :: (List.map Event.mw ls ++ (Handler.Apply next ctx).1),
             (Handler.Apply next ctx).2)) := by
  refine ⟨handlerUse_emitMw_trace, ?_⟩
  intro r ls next ctx
  have step : Handler.Apply (Middleware.Then (Middleware.Use (emitMw r)
          (List.map emitMw ls)) next) ctx
      = (Event.mw r :: (Handler.Apply (Handler.Use next (List.map emitMw ls)) ctx).1,
         (Handler.Apply (Handler.Use next (List.map emitMw ls)) ctx).2) := rfl
  rw [step, handlerUse_emitMw_trace]

/-- Claim C4: Compose runs the composed middlewares first, in list order,
then the final continuation: literally, Compose(m1, m2).Then(h) on the
trace-emitting fixtures produces mw(1), mw(2), h(1) in that order on any
context; generally, Compose over any list of emitting middlewares prefixes
their labels in list order to the continuation's own trace and returns the
continuation's outcome. -/
theorem claim_C4 :
    (∀ ctx : Ctx,
        Handler.Apply (Middleware.Then (Compose [emitMw "1", emitMw "2"])
            (emitH "1")) ctx
          = ([Event.mw "1", Event.mw "2", Event.h "1"], GoErr.none))
    ∧ (∀ (ls : List String) (h : Handler) (ctx : Ctx),
        Handler.Apply (Middleware.Then (Compose (List.map emitMw ls)) h) ctx
          = (List.map Event.mw ls ++ (Handler.Apply h ctx).1, (Handler.Apply h ctx).2)) := by
  constructor
  · intro ctx; rfl
  · intro ls h ctx
    have step : Handler.Apply (Middleware.Then (Compose (List.map emitMw ls)) h) ctx
        = Handler.Apply (Handler.Use h (List.map emitMw ls)) ctx := rfl
    rw [step, handlerUse_emitMw_trace]

/-- Claim C9: nil-safety and identities — applying a nil Handler succeeds
doing nothing; Then on a nil Middleware returns the handler unchanged;
Compose of the empty list composed onto any handler behaves exactly as that
handler alone; and the empty Compose tolerates a nil continuation by
returning success. -/
theorem claim_C9 :
    (∀ ctx : Ctx, Handler.Apply Option.none ctx = ([], GoErr.none))
    ∧ (∀ h : Handler, Middleware.Then Option.none h = h)
    ∧ (∀ (h : Handler) (ctx : Ctx),
        Handler.Apply (Middleware.Then (Compose []) h) ctx = Handler.Apply h ctx)
    ∧ (∀ ctx : Ctx,
        Handler.Apply (Middleware.Then (Compose []) Option.none) ctx
          = ([], GoErr.none)) := by
  exact ⟨fun _ => rfl, fun _ => rfl, fun _ _ => rfl, fun _ => rfl⟩

/-- Claim C5: Branch evaluates its predicate against the context of each
individual invocation: on any invocation it behaves exactly as mw.Use(mws...)
when the predicate holds there and as plain mw otherwise (first conjunct),
and one and the same constructed Branch value takes both behaviors on two
invocations whose contexts make the predicate true resp. false (second and
third conjuncts, on the trace-emitting fixtures). -/
theorem claim_C5 :
    (∀ (mw : Middleware) (p : Predicate) (mws : List Middleware) (ctx : Ctx)
        (next : Handler),
        Handler.Apply (Middleware.Then (Middleware.Branch mw p mws) next) ctx
          = cond (p ctx)
              (Handler.Apply (Middleware.Then (Middleware.Use mw mws) next) ctx)
              (Handler.Apply (Middleware.Then mw next) ctx))
    ∧ (Handler.Apply (Middleware.Then (Middleware.Branch (emitMw "1") (keyIs 1)
          [emitMw "2"]) (emitH "1")) (ctxWithKey 1)
        = ([Event.mw "1", Event.mw "2", Event.h "1"], GoErr.none))
    ∧ (Handler.Apply (Middleware.Then (Middleware.Branch (emitMw "1") (keyIs 1)
          [emitMw "2"]) (emitH "1")) (ctxWithKey 2)
        = ([Event.mw "1", Event.h "1"], GoErr.none)) := by
  refine ⟨?_, rfl, rfl⟩
  intro mw p mws ctx next
  cases hp : p ctx with
  | true => simp [Middleware.Branch, Lazy, Middleware.Then, Handler.Apply, hp]
  | false => simp [Middleware.Branch, Lazy, Middleware.Then, Handler.Apply, hp]

/-- Claim C6: On overrides the caller-supplied continuation with its handler
exactly when its predicate holds on the invocation context (first conjunct);
a chain of On registrations with mutually exclusive predicates fires exactly
the matching handler, and with no match no registered handler runs and
control falls through to the default continuation (remaining conjuncts,
replicating the dispatch-table test over the nil Default middleware). -/
theorem claim_C6 :
    (∀ (mw : Middleware) (p : Predicate) (h : Handler) (ctx : Ctx) (next : Handler),
        Handler.Apply (Middleware.Then (Middleware.On mw p h) next) ctx
          = cond (p ctx)
              (Handler.Apply (Middleware.Then mw h) ctx)
              (Handler.Apply (Middleware.Then mw next) ctx))
    ∧ (Handler.Apply (Middleware.Then (Middleware.On (Middleware.On Default
          (keyIs 1) (emitH "1")) (keyIs 2) (emitH "2")) Option.none) (ctxWithKey 1)
        = ([Event.h "1"], GoErr.none))
    ∧ (Handler.Apply (Middleware.Then (Middleware.On (Middleware.On Default
          (keyIs 1) (emitH "1")) (keyIs 2) (emitH "2")) Option.none) (ctxWithKey 2)
        = ([Event.h "2"], GoErr.none))
    ∧ (Handler.Apply (Middleware.Then (Middleware.On (Middleware.On Default
          (keyIs 1) (emitH "1")) (keyIs 2) (emitH "2")) Option.none) (ctxWithKey 3)
        = ([], GoErr.none)) := by
  exact ⟨fun mw p h ctx next => rfl, rfl, rfl, rfl⟩

/-- Claim C7: Next runs the continuation first; when the continuation fails
genuinely, that failure is returned unchanged — for every accepted value
shape, so the value is never evaluated into the outcome (first conjunct);
only when the continuation succeeds does Next evaluate its value and return
it as its own outcome (second conjunct), and on the key and ready-made-State
shapes that evaluated value is a State signal (last conjuncts). -/
theorem claim_C7 :
    (∀ (val : StateArg) (f : HandlerF) (ctx : Ctx) (tr : List Event) (msg : String),
        f ctx = (tr, GoErr.fail msg) →
        Handler.Apply (Middleware.Then (Next val) (Option.some f)) ctx
          = (tr, GoErr.fail msg))
    ∧ (∀ (val : StateArg) (f : HandlerF) (ctx : Ctx) (tr : List Event),
        f ctx = (tr, GoErr.none) →
        Handler.Apply (Middleware.Then (Next val) (Option.some f)) ctx
          = (tr, lazy val ctx))
    ∧ (∀ (k : String) (ctx : Ctx),
        lazy (StateArg.key k) ctx
          = GoErr.state (Option.some (StateV.mk k "" Option.none)))
    ∧ (∀ (st : StateV) (ctx : Ctx),
        lazy (StateArg.state st) ctx = GoErr.state (Option.some st)) := by
  refine ⟨?_, ?_, fun k ctx => rfl, fun st ctx => rfl⟩
  · intro val f ctx tr msg hf
    simp [Next, Middleware.Then, Handler.Apply, hf]
  · intro val f ctx tr hf
    simp [Next, Middleware.Then, Handler.Apply, hf]

/-- Witness for claim C7 at concrete inputs: a failing continuation's failure
passes through Next unchanged, and a succeeding continuation yields the
pushed key state. -/
theorem claim_C7_witness :
    Handler.Apply (Middleware.Then (Next (StateArg.key "A"))
        (Option.some (fun _ => ([Event.h "x"], GoErr.fail "boom")))) []
      = ([Event.h "x"], GoErr.fail "boom")
    ∧ Handler.Apply (Middleware.Then (Next (StateArg.key "A"))
        (Option.some (fun _ => ([], GoErr.none)))) []
      = ([], GoErr.state (Option.some (StateV.mk "A" "" Option.none))) := by
  constructor
  · exact claim_C7.1 (StateArg.key "A")
      (fun _ => ([Event.h "x"], GoErr.fail "boom")) [] [Event.h "x"] "boom" rfl
  · exact claim_C7.2.1 (StateArg.key "A") (fun _ => ([], GoErr.none)) [] [] rfl

/-- Claim C10 (implicit): when the continuation under Next itself returns a
State-as-next-state signal, that non-nil outcome is returned unchanged, the
outer value never evaluated (first conjunct); so in nested transition
middlewares the innermost signal wins: an outer Next around an inner Push
returns the inner pushed state, not its own (second conjunct). -/
theorem claim_C10 :
    (∀ (val : StateArg) (f : HandlerF) (ctx : Ctx) (tr : List Event)
        (p : Option StateV),
        f ctx = (tr, GoErr.state p) →
        Handler.Apply (Middleware.Then (Next val) (Option.some f)) ctx
          = (tr, GoErr.state p))
    ∧ Handler.Apply (Middleware.Then (Next (StateArg.key "OUTER"))
          (Middleware.Then (Push (StateArg.key "INNER")) okHandler)) []
        = ([], GoErr.state (Option.some (StateV.mk "INNER" "" Option.none))) := by
  refine ⟨?_, rfl⟩
  intro val f ctx tr p hf
  simp [Next, Middleware.Then, Handler.Apply, hf]

/-- Witness for claim C10 at a concrete input: an outer Next returns the
continuation's state signal unchanged. -/
theorem claim_C10_witness :
    Handler.Apply (Middleware.Then (Next (StateArg.key "Y"))
        (Option.some (fun _ =>
          ([], GoErr.state (Option.some (StateV.mk "X" "" Option.none)))))) []
      = ([], GoErr.state (Option.some (StateV.mk "X" "" Option.none))) :=
  claim_C10.1 (StateArg.key "Y")
    (fun _ => ([], GoErr.state (Option.some (StateV.mk "X" "" Option.none)))) [] []
    (Option.some (StateV.mk "X" "" Option.none)) rfl

/-- Next on a succeeding continuation returns the continuation's trace and
the evaluation of the deferred value. -/
theorem next_ok (val : StateArg) (f : HandlerF) (ctx : Ctx) (tr : List Event)
    (hf : f ctx = (tr, GoErr.none)) :
    Handler.Apply (Middleware.Then (Next val) (Option.some f)) ctx
      = (tr, lazy val ctx) := by
  simp [Next, Middleware.Then, Handler.Apply, hf]

/-- Evaluation rule of lazy on the function shape. -/
theorem lazy_func (g : Ctx → GoErr) (ctx : Ctx) :
    lazy (StateArg.func g) ctx = g ctx := rfl

/-- Claim C8: whatever the current state bound in the invocation context is,
the state Push signals carries it as Prev (first conjunct, for any accepted
value shape whose evaluation yields a state and any succeeding
continuation), and the state Pop signals is the Prev of the current state
(second conjunct); consequently, driving a Machine over an in-memory store
from bottom state S0, Push("A") persists A with Prev S0, then Push("B")
persists B with Prev A, then Pop() persists A again, and a further Pop()
persists the bottom S0 (last four conjuncts). -/
theorem claim_C8 :
    (∀ (val : StateArg) (n : StateV) (f : HandlerF) (ctx : Ctx) (tr : List Event),
        lazy val ctx = GoErr.state (Option.some n) →
        f ctx = (tr, GoErr.none) →
        Handler.Apply (Middleware.Then (Push val) (Option.some f)) ctx
          = (tr, GoErr.state (Option.some (StateV.withPrev n (Current ctx)))))
    ∧ (∀ (s : StateV) (f : HandlerF) (ctx : Ctx) (tr : List Event),
        Current ctx = Option.some s →
        f ctx = (tr, GoErr.none) →
        Handler.Apply (Middleware.Then Pop (Option.some f)) ctx
          = (tr, GoErr.state (StateV.prev s)))
    ∧ setCalls (machineRun (Option.some bottomS) (Push (StateArg.key "A"))).1
        = [Option.some stA]
    ∧ setCalls (machineRun (Option.some stA) (Push (StateArg.key "B"))).1
        = [Option.some stB]
    ∧ setCalls (machineRun (Option.some stB) Pop).1 = [Option.some stA]
    ∧ setCalls (machineRun (Option.some stA) Pop).1 = [Option.some bottomS] := by
  refine ⟨?_, ?_, rfl, rfl, rfl, rfl⟩
  · intro val n f ctx tr hlazy hf
    unfold Push
    rw [next_ok _ f ctx tr hf]
    simp only [lazy_func]
    rw [hlazy]
  · intro s f ctx tr hcur hf
    unfold Pop
    rw [next_ok _ f ctx tr hf]
    simp only [lazy_func]
    rw [hcur]

/-- Witness for claim C8 at concrete inputs: pushing key "A" over current
state S0 signals A with Prev S0, and popping over current state A (whose
Prev is S0) signals S0. -/
theorem claim_C8_witness :
    Handler.Apply (Middleware.Then (Push (StateArg.key "A"))
        (Option.some (fun _ => ([], GoErr.none))))
        (withValue [] CtxKey.stateKey (CtxVal.statePtr (Option.some bottomS)))
      = ([], GoErr.state (Option.some stA))
    ∧ Handler.Apply (Middleware.Then Pop (Option.some (fun _ => ([], GoErr.none))))
        (withValue [] CtxKey.stateKey (CtxVal.statePtr (Option.some stA)))
      = ([], GoErr.state (Option.some bottomS)) := by
  constructor
  · exact claim_C8.1 (StateArg.key "A") (StateV.mk "A" "" Option.none)
      (fun _ => ([], GoErr.none))
      (withValue [] CtxKey.stateKey (CtxVal.statePtr (Option.some bottomS))) []
      rfl rfl
  · exact claim_C8.2.1 stA (fun _ => ([], GoErr.none))
      (withValue [] CtxKey.stateKey (CtxVal.statePtr (Option.some stA))) [] rfl rfl

/-- Claim C1 (counterexample): when the wrapped chain signals a next state
and Store.Set succeeds, Machine returns nil (the result of Store.Set), not
the State outcome the claim promises: here the continuation signals state A
over an in-memory store, Set is called with A, and the invocation's outcome
is GoErr.none, which differs from the State outcome. -/
theorem claim_C1_counterexample :
    (Handler.Apply (Middleware.Then (Machine (fun _ => simpleStore
        (Option.some bottomS)))
        (Option.some (fun _ => ([], GoErr.state (Option.some stA))))) []).2
      = GoErr.none
    ∧ GoErr.none ≠ GoErr.state (Option.some stA) :=
  ⟨rfl, fun hcontra => GoErr.noConfusion hcontra⟩

/-- Claim C1 (amended): Machine obtains a Store from the factory applied to
the invocation context; a Get failure is returned immediately — the trace
holds the Get call only, so the continuation never ran and Set was never
called (first conjunct); on a loaded state the continuation runs on the
derived context binding that state, and when its outcome is a State value
Machine hands exactly that State to Store.Set once and returns the result
of Store.Set (second conjunct, with the exactly-once Set count); any other
outcome is returned unchanged with no Set call (third conjunct). -/
theorem claim_C1_amended (factory : Ctx → Store) (ctx : Ctx) (f : HandlerF)
    (st : Option StateV) (e : GoErr) (hget : (factory ctx).get = (st, e)) :
    (e ≠ GoErr.none →
      Handler.Apply (Middleware.Then (Machine factory) (Option.some f)) ctx
        = ([Event.storeGet], e))
    ∧ (∀ (tr : List Event) (ns : Option StateV), e = GoErr.none →
        f (withValue ctx CtxKey.stateKey (CtxVal.statePtr st))
          = (tr, GoErr.state ns) →
        Handler.Apply (Middleware.Then (Machine factory) (Option.some f)) ctx
          = (Event.storeGet :: (tr ++ [Event.storeSet ns]), (factory ctx).setErr ns)
        ∧ setCalls (Event.storeGet :: (tr ++ [Event.storeSet ns]))
          = setCalls tr ++ [ns])
    ∧ (∀ (tr : List Event) (e2 : GoErr), e = GoErr.none →
        f (withValue ctx CtxKey.stateKey (CtxVal.statePtr st)) = (tr, e2) →
        (∀ p : Option StateV, e2 ≠ GoErr.state p) →
        Handler.Apply (Middleware.Then (Machine factory) (Option.some f)) ctx
          = (Event.storeGet :: tr, e2)
        ∧ setCalls (Event.storeGet :: tr) = setCalls tr) := by
  refine ⟨?_, ?_, ?_⟩
  · intro hne
    cases e with
    | none => exact absurd rfl hne
    | fail m => simp [Machine, Middleware.Then, Handler.Apply, hget]
    | state p => simp [Machine, Middleware.Then, Handler.Apply, hget]
    | panicked m => simp [Machine, Middleware.Then, Handler.Apply, hget]
  · intro tr ns he hf
    subst he
    constructor
    · simp [Machine, Middleware.Then, Handler.Apply, Handler.call, hget, hf]
    · simp [setCalls]
  · intro tr e2 he hf hns
    subst he
    constructor
    · cases e2 with
      | none => simp [Machine, Middleware.Then, Handler.Apply, Handler.call, hget, hf]
      | fail m => simp [Machine, Middleware.Then, Handler.Apply, Handler.call, hget, hf]
      | state p => exact absurd rfl (hns p)
      | panicked m =>
          simp [Machine, Middleware.Then, Handler.Apply, Handler.call, hget, hf]
    · simp [setCalls]

/-- Witness for claim C1 at concrete inputs: over an in-memory store loaded
with the bottom state, a continuation signaling state A makes Machine call
Set with A exactly once and return Set's (successful) result. -/
theorem claim_C1_amended_witness :
    Handler.Apply (Middleware.Then (Machine (fun _ => simpleStore
        (Option.some bottomS)))
        (Option.some (fun _ => ([], GoErr.state (Option.some stA))))) []
      = ([Event.storeGet, Event.storeSet (Option.some stA)], GoErr.none)
    ∧ setCalls [Event.storeGet, Event.storeSet (Option.some stA)]
      = [Option.some stA] := by
  have h := (claim_C1_amended (fun _ => simpleStore (Option.some bottomS)) []
      (fun _ => ([], GoErr.state (Option.some stA))) (Option.some bottomS)
      GoErr.none rfl).2.1 [] (Option.some stA) rfl rfl
  exact ⟨h.1, by simp [setCalls]⟩
